import Mathlib

/-!
Verification of the code-parser repository's natural-language specification
against a shallow embedding of its source code.

Each section embeds the Python source of one component as executable Lean
definitions (pure functions; stateful code becomes explicit state passing);
the theorems at the end settle the spec's claims against those definitions.

String operations (splitting, lowercasing, substring search) are modelled
on `List Char` with structural recursion so that every definition is
kernel-computable; the sources only ever split on single ASCII characters,
where these models agree with the Python string methods they embed.
-/

namespace CodeParser

/-! ### String toolkit -/

/-- Embeds Python `s.split(sep)` for a one-character separator, on character lists.
Like Python's `str.split` with an explicit separator, the result is never
empty and splitting the empty string yields one empty group. -/
def splitOnChar (c : Char) : List Char → List (List Char)
  | [] => [[]]
  | x :: xs =>
    match splitOnChar c xs with
    | [] => [[]]
    | g :: gs => if x = c then [] :: g :: gs else (x :: g) :: gs

/-- Embeds Python `sep.join(groups)` for a one-character separator. -/
def joinWithChar (c : Char) : List (List Char) → List Char
  | [] => []
  | [g] => g
  | g :: gs => g ++ c :: joinWithChar c gs

/-- Embeds `str.lower()` restricted to ASCII case mapping, which is all the
sources apply it to (file extensions). -/
def strToLower (s : String) : String := String.mk (s.toList.map Char.toLower)

/-- Python string `<=` (code-point lexicographic), as a Boolean. -/
def strBle (a b : String) : Bool :=
  go a.toList b.toList
where
  go : List Char → List Char → Bool
    | [], _ => true
    | _ :: _, [] => false
    | x :: xs, y :: ys => if x < y then true else if y < x then false else go xs ys

/-- Index of the last occurrence of a character in a list, if any. -/
def lastIdxOfChar (c : Char) (cs : List Char) : Option Nat :=
  match cs.reverse.indexOf? c with
  | none => none
  | some j => some (cs.length - 1 - j)

/-- Embeds `text.replace(old, new)` for one-character old and new. -/
def replaceChar (old new : Char) (s : String) : String :=
  String.mk (s.toList.map fun c => if c = old then new else c)

/-- Whether `p` occurs as a contiguous substring of `s`
(SQL `LIKE s, concatenating wildcard, p, wildcard` / Python `p in s`). -/
def containsSubstring (s p : String) : Bool :=
  decide (p.toList <:+: s.toList)

/-! ## File discovery and parser registry
Embedding of `discover_files` (src/code_parser/services/file_discovery.py)
and `ParserRegistry` (src/code_parser/parsers/registry.py).  The operating
system walk itself is external; the model takes the walked files that
survive the `SKIP_DIRECTORIES` pruning as input, each given by its
relative path and its byte size as returned by stat (a file whose stat
raises OSError is skipped by the code and is not part of the input). -/

/-- The extension map built by `_create_default_registry`: registration
order is PythonParser, JavaParser, JavaScriptParser, KotlinParser,
RustParser, each contributing its `file_extensions`. -/
def extensionMap : List (String × String) :=
  [(".py", "python"),
   (".java", "java"),
   (".js", "javascript"), (".mjs", "javascript"), (".cjs", "javascript"),
   (".kt", "kotlin"), (".kts", "kotlin"),
   (".rs", "rust")]

/-- The registry's registered parsers, identified by their language
(the keys of `self._parsers`). -/
def registeredLanguages : List String :=
  ["python", "java", "javascript", "kotlin", "rust"]

/-- Embeds `ParserRegistry.supported_extensions`: the keys of the extension map. -/
def supported_extensions : List String := extensionMap.map Prod.fst

/-- Embeds `pathlib.PurePath.suffix` of a single path component `name`:
the substring from the last dot, provided that dot is neither the first
nor the last character; otherwise the empty string. -/
def pySuffix (name : String) : String :=
  let cs := name.toList
  match lastIdxOfChar '.' cs with
  | none => ""
  | some i => if 0 < i ∧ i < cs.length - 1 then String.mk (cs.drop i) else ""

/-- The last component of a slash-separated path
(`file_path.rsplit("/", 1)[-1]`). -/
def baseName (p : String) : String :=
  String.mk ((splitOnChar '/' p.toList).getLastD [])

/-- Embeds `ParserRegistry._get_extension`: split the basename on dots and return
the last part with a leading dot when there are at least two parts.
Unlike discovery, this lookup does not lowercase. -/
def registryGetExtension (filePath : String) : String :=
  let parts := splitOnChar '.' (baseName filePath).toList
  if parts.length ≥ 2 then "." ++ String.mk (parts.getLastD []) else ""

/-- Embeds `ParserRegistry.get_language_for_file`. -/
def get_language_for_file (filePath : String) : Option String :=
  extensionMap.lookup (registryGetExtension filePath)

/-- Embeds `ParserRegistry.get_parser_for_file`, with a parser identified by its
language: extension lookup, then `self._parsers.get(language)`. -/
def get_parser_for_file (filePath : String) : Option String :=
  match extensionMap.lookup (registryGetExtension filePath) with
  | some language =>
      if registeredLanguages.contains language then some language else none
  | none => none

/-- A file seen by the walk in `discover_files`, before filtering. -/
structure DiscoveredFile where
  relativePath : String
  sizeBytes : Nat
deriving DecidableEq, Repr

/-- The admission test of `discover_files` for one walked file: the
lowercased `Path(filename).suffix` must be a supported extension, and then
the byte size must not exceed `settings.max_file_size_bytes`. -/
def fileAdmitted (maxFileSizeBytes : Nat) (fileName : String) (size : Nat) : Bool :=
  (strToLower (pySuffix fileName) ∈ supported_extensions : Bool)
    && !(size > maxFileSizeBytes)

/-- Embeds `discover_files`: filter the walked files by the admission test, then
sort by relative path for deterministic processing. -/
def discover_files (maxFileSizeBytes : Nat) (walked : List DiscoveredFile) :
    List DiscoveredFile :=
  (walked.filter fun f =>
      fileAdmitted maxFileSizeBytes (baseName f.relativePath) f.sizeBytes).mergeSort
    (fun a b => strBle a.relativePath b.relativePath)

/-! ## Worker poll backoff
Embedding of `WorkerManager._worker_loop`
(src/code_parser/workers/manager.py).  The multiplier starts at 1.0 and on
each consecutive empty poll the loop first waits
`poll_interval * backoff_multiplier`, then updates the multiplier to
`min(backoff_multiplier * 1.5, 10.0)`.  The Python floats are modelled as
rationals; every value reached here (products of 1.5 capped at 10.0,
scaled by the configured interval) is exactly representable in binary
floating point, so the rational model computes the same numbers the code
does. -/

/-- The backoff multiplier in effect after `n` consecutive empty polls. -/
def backoffMultiplier : Nat → ℚ
  | 0 => 1
  | n + 1 => min (backoffMultiplier n * (3 / 2)) 10

/-- The wait executed on the `(n+1)`-th consecutive empty poll: the code
computes `wait_time = poll_interval * backoff_multiplier` before updating
the multiplier, and the `asyncio.wait_for` timeout is exactly this value
(the wait also ends early on shutdown). -/
def waitTime (pollInterval : ℚ) (n : Nat) : ℚ :=
  pollInterval * backoffMultiplier n

/-! ## Stored rows of the repository database
The row shapes of the `files`, `symbols`, `references` and `parsing_jobs`
tables (src/code_parser/database/models.py), restricted to the columns the
queries under study read or write. -/

/-- A row of the `files` table. -/
structure FileRow where
  id : String
  repoId : String
  relativePath : String
  language : String
deriving DecidableEq, Repr

/-- A row of the `symbols` table. -/
structure SymbolRow where
  id : String
  fileId : String
  repoId : String
  name : String
  qualifiedName : String
  kind : String
  sourceCode : Option String
  signature : Option String
  parentSymbolId : Option String
deriving DecidableEq, Repr

/-- A row of the `references` table. -/
structure ReferenceRow where
  id : String
  repoId : String
  sourceSymbolId : String
  targetSymbolId : Option String
  sourceFilePath : String
  sourceSymbolName : String
  targetFilePath : String
  targetSymbolName : String
  referenceType : String
deriving DecidableEq, Repr

/-- A row of the `parsing_jobs` table. -/
structure JobRow where
  id : String
  repoId : String
  status : String
  workerId : Option String
  createdAt : Nat
  startedAt : Option Nat
deriving DecidableEq, Repr

/-! ## Recursive graph traversal
Embedding of `SymbolRepository.get_downstream` and
`SymbolRepository.get_upstream`
(src/code_parser/repositories/symbol_repository.py).  The recursive CTE is
unrolled level by level: the anchor member produces the depth-1 rows, and
because every row produced at level `k` carries depth exactly `k + 1`, the
guard `d.depth < max_depth` admits exactly the levels `0 .. max_depth - 1`
(the anchor level is always produced, even for `max_depth ≤ 1`). -/

/-- A row of the `downstream` CTE. -/
structure DownstreamRow where
  symbolId : Option String
  targetFilePath : String
  targetSymbolName : String
  referenceType : String
  depth : Nat
deriving DecidableEq, Repr

/-- Project a reference onto a CTE row at a given depth. -/
def downstreamRowOf (r : ReferenceRow) (depth : Nat) : DownstreamRow :=
  ⟨r.targetSymbolId, r.targetFilePath, r.targetSymbolName, r.referenceType, depth⟩

/-- The anchor member of the downstream CTE: all references whose
`source_symbol_id` is the requested symbol, at depth 1. -/
def downstreamBase (refs : List ReferenceRow) (symbolId : String) : List DownstreamRow :=
  (refs.filter fun r => r.sourceSymbolId == symbolId).map (downstreamRowOf · 1)

/-- The recursive member of the downstream CTE: join the previous level
with references on `r.source_symbol_id = d.symbol_id`; a SQL equality
against a NULL `symbol_id` never holds (the query also guards
`d.symbol_id IS NOT NULL` explicitly). -/
def downstreamStep (refs : List ReferenceRow) (prev : List DownstreamRow) : List DownstreamRow :=
  prev.flatMap fun d =>
    match d.symbolId with
    | none => []
    | some sid =>
        (refs.filter fun r => r.sourceSymbolId == sid).map fun r =>
          downstreamRowOf r (d.depth + 1)

/-- Level `k` of the downstream CTE (rows of depth `k + 1`). -/
def downstreamLevels (refs : List ReferenceRow) (symbolId : String) : Nat → List DownstreamRow
  | 0 => downstreamBase refs symbolId
  | k + 1 => downstreamStep refs (downstreamLevels refs symbolId k)

/-- All rows of the downstream CTE under the bound `max_depth`: the levels
`0 .. max_depth - 1`, and always at least the anchor level. -/
def downstreamRows (refs : List ReferenceRow) (symbolId : String) (maxDepth : Nat) :
    List DownstreamRow :=
  (List.range (max 1 maxDepth)).flatMap (downstreamLevels refs symbolId)

/-- One row of the final `SELECT DISTINCT` of `get_downstream`, after the
`LEFT JOIN symbols`: symbol columns are NULL when the row's `symbol_id` is
NULL or matches no symbol. -/
structure DownstreamResult where
  id : Option String
  name : Option String
  qualifiedName : Option String
  kind : Option String
  sourceCode : Option String
  signature : Option String
  depth : Nat
  referenceType : String
  targetFilePath : String
  targetSymbolName : String
deriving DecidableEq, Repr

/-- The `LEFT JOIN symbols s ON d.symbol_id = s.id` projection of one CTE
row (symbol ids are the table's primary key, so at most one row joins). -/
def downstreamSelect (syms : List SymbolRow) (d : DownstreamRow) : DownstreamResult :=
  match d.symbolId.bind fun sid => syms.find? fun s => s.id == sid with
  | some s =>
      ⟨some s.id, some s.name, some s.qualifiedName, some s.kind, s.sourceCode, s.signature,
        d.depth, d.referenceType, d.targetFilePath, d.targetSymbolName⟩
  | none =>
      ⟨none, none, none, none, none, none,
        d.depth, d.referenceType, d.targetFilePath, d.targetSymbolName⟩

/-- Python `a or b` over a nullable string column and a string. -/
def pyStrOr (a : Option String) (b : String) : String :=
  match a with
  | some s => if s = "" then b else s
  | none => b

/-- The dictionary `SymbolRepository.get_downstream` builds per result
row: `name` is `row.name or row.target_symbol_name`, everything else is
carried through. -/
structure DownstreamEntry where
  id : Option String
  name : String
  qualifiedName : Option String
  kind : Option String
  sourceCode : Option String
  signature : Option String
  depth : Nat
  referenceType : String
  targetFilePath : String
  targetSymbolName : String
deriving DecidableEq, Repr

/-- Per-row dictionary construction of `get_downstream`. -/
def downstreamEntryOf (r : DownstreamResult) : DownstreamEntry :=
  ⟨r.id, pyStrOr r.name r.targetSymbolName, r.qualifiedName, r.kind, r.sourceCode, r.signature,
    r.depth, r.referenceType, r.targetFilePath, r.targetSymbolName⟩

/-- Embeds `SymbolRepository.get_downstream`: CTE rows, `SELECT DISTINCT`
projection, then the Python dictionary per row.  The SQL `ORDER BY
depth, qualified_name` only permutes the result and is not modelled; the
claims about this query are membership statements. -/
def get_downstream (syms : List SymbolRow) (refs : List ReferenceRow)
    (symbolId : String) (maxDepth : Nat) : List DownstreamEntry :=
  (((downstreamRows refs symbolId maxDepth).map (downstreamSelect syms)).dedup).map
    downstreamEntryOf

/-- A row of the `upstream` CTE: `source_symbol_id` is a non-null column,
so the CTE's symbol id is never NULL. -/
structure UpstreamRow where
  symbolId : String
  referenceType : String
  depth : Nat
deriving DecidableEq, Repr

/-- Anchor member of the upstream CTE: references whose
`target_symbol_id` equals the requested symbol; a NULL target never
satisfies the SQL equality. -/
def upstreamBase (refs : List ReferenceRow) (symbolId : String) : List UpstreamRow :=
  (refs.filter fun r => r.targetSymbolId == some symbolId).map fun r =>
    ⟨r.sourceSymbolId, r.referenceType, 1⟩

/-- Recursive member of the upstream CTE. -/
def upstreamStep (refs : List ReferenceRow) (prev : List UpstreamRow) : List UpstreamRow :=
  prev.flatMap fun u =>
    (refs.filter fun r => r.targetSymbolId == some u.symbolId).map fun r =>
      ⟨r.sourceSymbolId, r.referenceType, u.depth + 1⟩

/-- Level `k` of the upstream CTE (rows of depth `k + 1`). -/
def upstreamLevels (refs : List ReferenceRow) (symbolId : String) : Nat → List UpstreamRow
  | 0 => upstreamBase refs symbolId
  | k + 1 => upstreamStep refs (upstreamLevels refs symbolId k)

/-- All rows of the upstream CTE under the bound `max_depth`. -/
def upstreamRows (refs : List ReferenceRow) (symbolId : String) (maxDepth : Nat) :
    List UpstreamRow :=
  (List.range (max 1 maxDepth)).flatMap (upstreamLevels refs symbolId)

/-- One row of the final select of `get_upstream` (inner join). -/
structure UpstreamResult where
  id : String
  name : String
  qualifiedName : String
  kind : String
  sourceCode : Option String
  signature : Option String
  depth : Nat
  referenceType : String
deriving DecidableEq, Repr

/-- Embeds `SymbolRepository.get_upstream`: CTE rows, inner `JOIN symbols`,
`SELECT DISTINCT` (order again not modelled). -/
def get_upstream (syms : List SymbolRow) (refs : List ReferenceRow)
    (symbolId : String) (maxDepth : Nat) : List UpstreamResult :=
  ((upstreamRows refs symbolId maxDepth).flatMap fun u =>
      match syms.find? fun s => s.id == u.symbolId with
      | some s => [(⟨s.id, s.name, s.qualifiedName, s.kind, s.sourceCode, s.signature,
          u.depth, u.referenceType⟩ : UpstreamResult)]
      | none => []).dedup

/-! ## Cross-file reference resolution
Embedding of `SymbolRepository.resolve_cross_file_references`.  The
correlated subquery selects `s.id` from symbols joined with files with no
`ORDER BY` before its `LIMIT 1`; which matching row comes first therefore
depends on the execution's scan order, which the model represents as the
order of the stored symbol list. -/

/-- The subquery's candidate list for one reference, in scan order:
symbols of the repo whose name equals the reference's
`target_symbol_name` and whose file's relative path contains the
slash-form of the reference's `target_file_path` as a substring. -/
def crossFileCandidates (syms : List SymbolRow) (files : List FileRow)
    (repoId : String) (r : ReferenceRow) : List String :=
  ((syms.filter fun s =>
      s.repoId == repoId && s.name == r.targetSymbolName &&
        (files.filter fun f => f.id == s.fileId).any fun f =>
          containsSubstring f.relativePath (replaceChar '.' '/' r.targetFilePath)).map
    SymbolRow.id)

/-- Embeds `resolve_cross_file_references`: every reference of the repo with a
NULL `target_symbol_id` for which the `EXISTS` guard holds is updated to
the subquery's first candidate. -/
def resolve_cross_file_references (syms : List SymbolRow) (files : List FileRow)
    (repoId : String) (refs : List ReferenceRow) : List ReferenceRow :=
  refs.map fun r =>
    if r.repoId == repoId && r.targetSymbolId.isNone &&
        !(crossFileCandidates syms files repoId r).isEmpty then
      { r with targetSymbolId := (crossFileCandidates syms files repoId r).head? }
    else r

/-! ## Job claiming
Embedding of `JobRepository.claim_next`
(src/code_parser/repositories/job_repository.py).  The claim is one
atomic SQL statement (`UPDATE .. WHERE id = (SELECT .. FOR UPDATE SKIP
LOCKED LIMIT 1) RETURNING ..`); concurrent claimers therefore serialize
at the statement level, and an execution with any number of concurrent
workers is an arbitrary interleaving, i.e. an arbitrary sequence, of
atomic claims.  `NOW()` is modelled by a per-claim timestamp input. -/

/-- The inner select: the first pending job in `created_at` order
(ties broken by scan order, which SQL leaves arbitrary; the model takes
the stored order). -/
def selectNextPending (jobs : List JobRow) : Option JobRow :=
  (jobs.filter fun j => j.status == "pending").foldl
    (fun acc j =>
      match acc with
      | none => some j
      | some a => if j.createdAt < a.createdAt then some j else acc)
    none

/-- Embeds `claim_next`: atomically transition the selected pending job to
`parsing`, stamping `worker_id` and `started_at`, and return it. -/
def claim_next (now : Nat) (workerId : String) (jobs : List JobRow) :
    Option JobRow × List JobRow :=
  match selectNextPending jobs with
  | none => (none, jobs)
  | some j =>
      let updated : JobRow :=
        { j with status := "parsing", workerId := some workerId, startedAt := some now }
      (some updated, jobs.map fun x => if x.id == j.id then updated else x)

/-- A serialized execution of claim attempts: each element of `claims` is
one worker's atomic `claim_next` call, given as (worker id, clock value).
Returns the per-call results and the final job table. -/
def runClaims : List (String × Nat) → List JobRow → List (Option JobRow) × List JobRow
  | [], jobs => ([], jobs)
  | (w, t) :: cs, jobs =>
      let step := claim_next t w jobs
      let rest := runClaims cs step.2
      (step.1 :: rest.1, rest.2)

/-! ## Flow synthesis
Embedding of `FlowService.generate_flow`
(src/code_parser/services/flow_service.py).  The database and the LLM are
the loop's two external collaborators and enter the model as oracles:
`graph d` is `graph_service.get_downstream(repo, entry_symbol, d).nodes`,
`enrich` is the per-node symbol/file fetch that builds a
`nodes_with_code` dictionary (a node whose symbol is not found is
skipped), and `llm` is `ai_service.generate_flow_documentation`, which
either returns the parsed response or raises (`none`). -/

/-- A node of a graph query result, as consumed by the flow loop. -/
structure FlowNode where
  id : String
  name : String
  qualifiedName : String
  depth : Nat
  referenceType : String
deriving DecidableEq, Repr

/-- A `nodes_with_code` dictionary built for the LLM prompt. -/
structure NodeWithCode where
  id : String
  name : String
  qualifiedName : String
  depth : Nat
  sourceCode : String
  signature : String
  language : String
  filePath : String
deriving DecidableEq, Repr

/-- The `line_range` mapping of a code-snippet reference
(keys `start` and `end`, defaulting to 1 and the line count). -/
structure LineRange where
  lineStart : Nat
  lineEnd : Nat
deriving DecidableEq, Repr

/-- An `important_code_snippets` entry returned by the LLM; absent keys
are `none`. -/
structure SnippetRef where
  symbolName : Option String
  qualifiedName : Option String
  filePath : Option String
  lineRange : Option LineRange
  code : Option String
deriving DecidableEq, Repr

/-- A step dictionary returned by the LLM. -/
structure AiStep where
  stepNumber : Nat
  title : String
  description : String
  filePath : Option String
  importantLogLines : List String
  importantCodeSnippets : List SnippetRef
deriving DecidableEq, Repr

/-- The parsed response of `generate_flow_documentation`. -/
structure AiResponse where
  flowName : Option String
  technicalSummary : Option String
  steps : List AiStep
deriving DecidableEq, Repr

/-- Python truthiness of a nullable string. -/
def pyTruthyStr : Option String → Bool
  | none => false
  | some s => !(s == "")

/-- The single matching pass of snippet resolution: a node matches when
its `qualified_name` equals the snippet's, or its `name` and `file_path`
both equal the snippet's (a missing snippet key never equals a node's
string value). -/
def snippetNodeMatch (ref : SnippetRef) (node : NodeWithCode) : Bool :=
  ref.qualifiedName == some node.qualifiedName ||
    (ref.symbolName == some node.name && ref.filePath == some node.filePath)

/-- The first matching node's source code, if any
(the `for node in nodes_with_code: .. break` loop). -/
def findSnippetSource (nodes : List NodeWithCode) (ref : SnippetRef) : Option String :=
  (nodes.find? (snippetNodeMatch ref)).map NodeWithCode.sourceCode

/-- The `line_range` slice: Python
`lines[max(0, start - 1) : min(len(lines), end)]` joined back with
newlines.  Line numbers are the nonnegative integers the JSON envelope
carries; natural subtraction models Python's `max(0, start - 1)`. -/
def sliceByLineRange (code : String) (lr : LineRange) : String :=
  let lines := (splitOnChar '\n' code.toList).map String.mk
  let startIdx := lr.lineStart - 1
  let endIdx := min lines.length lr.lineEnd
  String.intercalate "\n" ((lines.take endIdx).drop startIdx)

/-- The per-snippet resolution block of `generate_flow`: find the first
matching node, slice by `line_range` when one is given and the found code
is truthy, then fill `code` — falling back to the snippet's own `code`,
then to the first node matching on `symbol_name` alone, then to the empty
string. -/
def resolveSnippetRef (nodes : List NodeWithCode) (ref : SnippetRef) : SnippetRef :=
  let found := findSnippetSource nodes ref
  let sliced :=
    match found, ref.lineRange with
    | some c, some lr => if c = "" then some c else some (sliceByLineRange c lr)
    | _, _ => found
  if pyTruthyStr sliced then { ref with code := sliced }
  else if pyTruthyStr ref.code then ref
  else
    let byName :=
      match nodes.find? fun n => ref.symbolName == some n.name with
      | some n => some n.sourceCode
      | none => ref.code
    if pyTruthyStr byName then { ref with code := byName }
    else { ref with code := some "" }

/-- Resolve every snippet of every step of an LLM response against the
iteration's `nodes_with_code`. -/
def resolveResponseSnippets (nodes : List NodeWithCode) (steps : List AiStep) : List AiStep :=
  steps.map fun st =>
    { st with importantCodeSnippets := st.importantCodeSnippets.map (resolveSnippetRef nodes) }

/-- Python truthiness of `previous_steps` (`None` and `[]` are falsy). -/
def pyTruthySteps : Option (List AiStep) → Bool
  | none => false
  | some l => !l.isEmpty

/-- The running state of the flow iteration loop. -/
structure FlowIterState where
  previousSteps : Option (List AiStep)
  iterationsCompleted : Nat
  lastFlowName : Option String
  lastTechnicalSummary : Option String
deriving DecidableEq, Repr

/-- The depth band of iteration `k`: nodes of the graph fetched with
`max_depth = k*3` whose depth lies in `[(k-1)*3, k*3]`. -/
def flowBand (graph : Nat → List FlowNode) (k : Nat) : List FlowNode :=
  (graph (k * 3)).filter fun n =>
    decide ((k - 1) * 3 ≤ n.depth) && decide (n.depth ≤ k * 3)

/-- The `for iteration in range(1, 5)` loop of `generate_flow`, iteration
by iteration (`fuel` counts the remaining iterations, starting at 4):
an empty band stops the loop at once (for every `k`, including `k = 1`);
otherwise the band is enriched, iteration 1 prepends the entry-point
node, and the LLM is consulted — on success the steps (with snippets
resolved) become `previous_steps` and `iterations_completed := k`; on an
LLM error the loop re-raises when `previous_steps` is falsy (`none`
result) and otherwise continues with the previous steps. -/
def flowIterLoop (graph : Nat → List FlowNode) (enrich : FlowNode → Option NodeWithCode)
    (llm : Nat → List NodeWithCode → Option (List AiStep) → Option AiResponse)
    (entryNode : NodeWithCode) :
    Nat → Nat → FlowIterState → Option FlowIterState
  | 0, _, st => some st
  | fuel + 1, k, st =>
      let band := flowBand graph k
      if band.isEmpty then some st
      else
        let nodesWithCode := band.filterMap enrich
        let nodesWithCode := if k == 1 then entryNode :: nodesWithCode else nodesWithCode
        match llm k nodesWithCode st.previousSteps with
        | some resp =>
            flowIterLoop graph enrich llm entryNode fuel (k + 1)
              { previousSteps := some (resolveResponseSnippets nodesWithCode resp.steps),
                iterationsCompleted := k,
                lastFlowName := resp.flowName,
                lastTechnicalSummary := resp.technicalSummary }
        | none =>
            if pyTruthySteps st.previousSteps then
              flowIterLoop graph enrich llm entryNode fuel (k + 1) st
            else none

/-- Embeds `generate_flow`, up to the flow assembly: the loop runs from
iteration 1 with four iterations of fuel and empty state; a propagated
LLM error or falsy final `previous_steps` (`raise ValueError("No flow
steps generated")`) fails the generation, otherwise the final steps and
`iterations_completed` — the fields of the stored flow the claims
observe — are returned. -/
def generate_flow (graph : Nat → List FlowNode) (enrich : FlowNode → Option NodeWithCode)
    (llm : Nat → List NodeWithCode → Option (List AiStep) → Option AiResponse)
    (entryNode : NodeWithCode) : Option (List AiStep × Nat) :=
  match flowIterLoop graph enrich llm entryNode 4 1 ⟨none, 0, none, none⟩ with
  | none => none
  | some st =>
      if pyTruthySteps st.previousSteps then
        some (st.previousSteps.getD [], st.iterationsCompleted)
      else none

/-! ## Python parser
Embedding of `PythonParser` (src/code_parser/parsers/python_parser.py)
over tree-sitter syntax trees.  The tree-sitter grammar itself is an
external library: concrete parse trees (node types, field names and byte
ranges as tree-sitter-python produces them) are supplied as values of
`TSNode`.  Byte offsets address the UTF-8 encoding of the source; the
sources the claims evaluate are ASCII, where byte and character offsets
coincide.  The `metadata` dictionary (decorators, parameters, docstring,
return type) and the line/column positions of a symbol are not read by
any claim and are not carried. -/

/-- A tree-sitter node: type, byte range, and children in document order,
each optionally tagged with its grammar field name (anonymous token nodes
carry no field). -/
inductive TSNode where
  | node (nodeType : String) (startByte endByte : Nat)
      (children : List (Option String × TSNode)) : TSNode

def TSNode.nodeType : TSNode → String
  | .node t _ _ _ => t

def TSNode.startByte : TSNode → Nat
  | .node _ s _ _ => s

def TSNode.endByte : TSNode → Nat
  | .node _ _ e _ => e

def TSNode.children : TSNode → List (Option String × TSNode)
  | .node _ _ _ cs => cs

/-- Embeds `node.child_by_field_name(f)`. -/
def TSNode.childByFieldName (n : TSNode) (f : String) : Option TSNode :=
  (n.children.find? fun c => c.1 == some f).map Prod.snd

/-- tree-sitter node identity (`child != module_node`), determined by
position and type within one tree. -/
def sameNode (a b : TSNode) : Bool :=
  a.nodeType == b.nodeType && a.startByte == b.startByte && a.endByte == b.endByte

/-- Embeds `_get_node_text`: the byte slice `source_bytes[start:end]`. -/
def getNodeText (n : TSNode) (src : List Char) : String :=
  String.mk ((src.drop n.startByte).take (n.endByte - n.startByte))

/-- A `Symbol` value emitted by a parser, restricted to the fields the
pipeline under study reads. -/
structure PySymbol where
  name : String
  qualifiedName : String
  kind : String
  sourceCode : String
  signature : Option String
  parentQualifiedName : Option String
deriving DecidableEq, Repr

/-- A `Reference` value emitted by a parser (field order of the
dataclass). -/
structure PyReference where
  referenceType : String
  sourceFilePath : Option String
  sourceSymbolName : Option String
  targetFilePath : Option String
  targetSymbolName : Option String
  sourceQualifiedName : Option String
  targetQualifiedName : Option String
deriving DecidableEq, Repr

/-- Embeds `ParsedFile`, restricted to the fields the claims observe
(`content_hash` is pass-through and `errors` only collects exception
text). -/
structure PyParsedFile where
  relativePath : String
  language : String
  symbols : List PySymbol
  references : List PyReference
deriving DecidableEq, Repr

/-- Embeds `ParseContext`: the mutable accumulator threaded through the walk. -/
structure ParseCtx where
  filePath : String
  src : List Char
  symbols : List PySymbol
  references : List PyReference
  scopeStack : List String
deriving Repr

/-- Embeds `ParseContext.current_scope`. -/
def ParseCtx.currentScope (ctx : ParseCtx) : Option String :=
  ctx.scopeStack.getLast?

/-- A scope value only when it is Python-truthy (`if ctx.current_scope:`). -/
def truthyScope (o : Option String) : Option String :=
  match o with
  | some s => if s = "" then none else some s
  | none => none

/-- Embeds `_is_inside_class`: the source itself notes this is a simplification —
any enclosing scope counts as being inside a class. -/
def isInsideClass (ctx : ParseCtx) : Bool := ctx.currentScope.isSome

/-- Embeds `PythonParser.file_extensions`. -/
def pythonFileExtensions : List String := [".py"]

/-- Embeds `"c".join(parts)` for a one-character separator over strings. -/
def joinStrings (c : Char) (parts : List String) : String :=
  String.mk (joinWithChar c (parts.map String.toList))

/-- Embeds `(".".join(s.split(".")[:-1]), s.split(".")[-1])`: split a dotted
name at its last dot. -/
def splitOnLastDot (s : String) : String × String :=
  let parts := splitOnChar '.' s.toList
  (String.mk (joinWithChar '.' parts.dropLast), String.mk (parts.getLastD []))

/-- Embeds `_split_qualified_name`: `rsplit(".", 1)` when a dot is present,
otherwise the name doubled. -/
def splitQualifiedName (qn : String) : String × String :=
  if qn.toList.contains '.' then splitOnLastDot qn else (qn, qn)

/-- Embeds `_build_qualified_name`: slashes and backslashes become dots, then a
matching registered extension is stripped, then the scope parts are
joined on. -/
def buildQualifiedName (filePath : String) (parts : List String) : String :=
  let modulePath := replaceChar '\\' '.' (replaceChar '/' '.' filePath)
  let modulePath :=
    match pythonFileExtensions.find? fun e => e.toList.isSuffixOf modulePath.toList with
    | some e => String.mk (modulePath.toList.take (modulePath.toList.length - e.toList.length))
    | none => modulePath
  if parts.isEmpty then modulePath else modulePath ++ "." ++ joinStrings '.' parts

/-- Embeds `_file_path_to_dot_notation`: a matching extension is stripped first,
then separators become dots. -/
def filePathToDotNotation (filePath : String) : String :=
  let path :=
    match pythonFileExtensions.find? fun e => e.toList.isSuffixOf filePath.toList with
    | some e => String.mk (filePath.toList.take (filePath.toList.length - e.toList.length))
    | none => filePath
  replaceChar '\\' '.' (replaceChar '/' '.' path)

/-- Embeds `_resolve_call_name`: the text of an `identifier` or `attribute`
function node, nothing otherwise. -/
def resolveCallName (n : TSNode) (src : List Char) : Option String :=
  if n.nodeType == "identifier" || n.nodeType == "attribute" then
    some (getNodeText n src)
  else none

/-- Embeds `_extract_function_signature`: decorator children (none appear on a
plain `function_definition`), then `def name(params)[ -> return_type]`. -/
def extractFunctionSignature (n : TSNode) (src : List Char) : String :=
  let decs := (n.children.filter fun c => c.2.nodeType == "decorator").map fun c =>
    getNodeText c.2 src
  let main :=
    match n.childByFieldName "name", n.childByFieldName "parameters" with
    | some nameNode, some paramsNode =>
        let sig := "def " ++ getNodeText nameNode src ++ getNodeText paramsNode src
        let sig :=
          match n.childByFieldName "return_type" with
          | some rt => sig ++ " -> " ++ getNodeText rt src
          | none => sig
        [sig]
    | _, _ => []
  joinStrings '\n' (decs ++ main)

/-- Embeds `_extract_class_signature`: decorators, then
`class Name[(superclasses)]`. -/
def extractClassSignature (n : TSNode) (src : List Char) : String :=
  let decs := (n.children.filter fun c => c.2.nodeType == "decorator").map fun c =>
    getNodeText c.2 src
  let main :=
    match n.childByFieldName "name" with
    | some nameNode =>
        let sig := "class " ++ getNodeText nameNode src
        let sig :=
          match n.childByFieldName "superclasses" with
          | some sc => sig ++ getNodeText sc src
          | none => sig
        [sig]
    | none => []
  joinStrings '\n' (decs ++ main)

/-- Embeds `_extract_base_classes`: the `identifier` and `attribute` children of
the `superclasses` field. -/
def extractBaseClasses (n : TSNode) (src : List Char) : List String :=
  match n.childByFieldName "superclasses" with
  | none => []
  | some sc =>
      (sc.children.filter fun c =>
          c.2.nodeType == "identifier" || c.2.nodeType == "attribute").map fun c =>
        getNodeText c.2 src

/-- Embeds `_add_import_symbol_and_reference`: an `import`-kind symbol named by
the module plus an `import` reference from `<file>`. -/
def addImportSymbolAndReference (moduleName sourceCode : String) (ctx : ParseCtx) : ParseCtx :=
  let qualifiedName := buildQualifiedName ctx.filePath ["import:" ++ moduleName]
  let sourceFilePath := filePathToDotNotation ctx.filePath
  let target :=
    if moduleName.toList.contains '.' then splitOnLastDot moduleName
    else (moduleName, moduleName)
  { ctx with
      symbols := ctx.symbols ++
        [⟨moduleName, qualifiedName, "import", sourceCode, none, ctx.currentScope⟩],
      references := ctx.references ++
        [⟨"import", some sourceFilePath, some "<file>", some target.1, some target.2,
          none, none⟩] }

/-- Embeds `_process_import`: each `dotted_name` child and each
`aliased_import`'s name field. -/
def processImportStmt (n : TSNode) (ctx : ParseCtx) : ParseCtx :=
  let sourceCode := getNodeText n ctx.src
  n.children.foldl
    (fun c ch =>
      if ch.2.nodeType == "dotted_name" then
        addImportSymbolAndReference (getNodeText ch.2 c.src) sourceCode c
      else if ch.2.nodeType == "aliased_import" then
        match ch.2.childByFieldName "name" with
        | some nameNode => addImportSymbolAndReference (getNodeText nameNode c.src) sourceCode c
        | none => c
      else c)
    ctx

/-- Embeds `_process_import_from`: the module field's text prefixes every
imported name. -/
def processImportFrom (n : TSNode) (ctx : ParseCtx) : ParseCtx :=
  let sourceCode := getNodeText n ctx.src
  match n.childByFieldName "module_name" with
  | none => ctx
  | some moduleNode =>
      let moduleName := getNodeText moduleNode ctx.src
      n.children.foldl
        (fun c ch =>
          if ch.2.nodeType == "dotted_name" || ch.2.nodeType == "identifier" then
            if sameNode ch.2 moduleNode then c
            else
              addImportSymbolAndReference (moduleName ++ "." ++ getNodeText ch.2 c.src)
                sourceCode c
          else if ch.2.nodeType == "aliased_import" then
            match ch.2.childByFieldName "name" with
            | some nameNode =>
                addImportSymbolAndReference (moduleName ++ "." ++ getNodeText nameNode c.src)
                  sourceCode c
            | none => c
          else c)
        ctx

/-- Embeds `_process_function` (`recur` is `_process_node` applied to the
remaining recursion budget; its first argument is the parent node seen by
the recursive call). -/
def processFunction (recur : Option TSNode → TSNode → ParseCtx → ParseCtx)
    (parent : Option TSNode) (n : TSNode) (ctx : ParseCtx) : ParseCtx :=
  match n.childByFieldName "name" with
  | none => ctx
  | some nameNode =>
      let name := getNodeText nameNode ctx.src
      let isMethod := ctx.currentScope.isSome && isInsideClass ctx
      let kind := if isMethod then "method" else "function"
      let qualifiedName :=
        match truthyScope ctx.currentScope with
        | some scope => scope ++ "." ++ name
        | none => buildQualifiedName ctx.filePath [name]
      let signature := extractFunctionSignature n ctx.src
      let sourceNode :=
        match parent with
        | some p => if p.nodeType == "decorated_definition" then p else n
        | none => n
      let sourceCode := getNodeText sourceNode ctx.src
      let ctx1 : ParseCtx :=
        { ctx with symbols := ctx.symbols ++
            [⟨name, qualifiedName, kind, sourceCode, some signature, ctx.currentScope⟩] }
      let ctx2 : ParseCtx :=
        if isMethod then
          match truthyScope ctx1.currentScope with
          | some scope =>
              let parentParts := splitQualifiedName scope
              let methodParts := splitQualifiedName qualifiedName
              { ctx1 with references := ctx1.references ++
                  [⟨"member", some parentParts.1, some parentParts.2,
                    some methodParts.1, some methodParts.2, none, none⟩] }
          | none => ctx1
        else ctx1
      let ctx3 : ParseCtx := { ctx2 with scopeStack := ctx2.scopeStack ++ [qualifiedName] }
      let ctx4 : ParseCtx :=
        match n.childByFieldName "body" with
        | some body => body.children.foldl (fun c (ch : Option String × TSNode) => recur (some body) ch.2 c) ctx3
        | none => ctx3
      { ctx4 with scopeStack := ctx4.scopeStack.dropLast }

/-- Embeds `_process_class`. -/
def processClass (recur : Option TSNode → TSNode → ParseCtx → ParseCtx)
    (parent : Option TSNode) (n : TSNode) (ctx : ParseCtx) : ParseCtx :=
  match n.childByFieldName "name" with
  | none => ctx
  | some nameNode =>
      let name := getNodeText nameNode ctx.src
      let qualifiedName :=
        match truthyScope ctx.currentScope with
        | some scope => scope ++ "." ++ name
        | none => buildQualifiedName ctx.filePath [name]
      let sourceParts := splitQualifiedName qualifiedName
      let bases := extractBaseClasses n ctx.src
      let ctx1 : ParseCtx :=
        bases.foldl
          (fun c b =>
            { c with references := c.references ++
                [⟨"inheritance", some sourceParts.1, some sourceParts.2, some b, some b,
                  none, none⟩] })
          ctx
      let signature := extractClassSignature n ctx.src
      let sourceNode :=
        match parent with
        | some p => if p.nodeType == "decorated_definition" then p else n
        | none => n
      let sourceCode := getNodeText sourceNode ctx1.src
      let ctx2 : ParseCtx :=
        { ctx1 with symbols := ctx1.symbols ++
            [⟨name, qualifiedName, "class", sourceCode, some signature, ctx1.currentScope⟩] }
      let ctx3 : ParseCtx := { ctx2 with scopeStack := ctx2.scopeStack ++ [qualifiedName] }
      let ctx4 : ParseCtx :=
        match n.childByFieldName "body" with
        | some body => body.children.foldl (fun c (ch : Option String × TSNode) => recur (some body) ch.2 c) ctx3
        | none => ctx3
      { ctx4 with scopeStack := ctx4.scopeStack.dropLast }

/-- Embeds `_process_call`: record a call reference when inside a truthy scope,
then recurse into the argument list for nested calls. -/
def processCall (recur : Option TSNode → TSNode → ParseCtx → ParseCtx)
    (n : TSNode) (ctx : ParseCtx) : ParseCtx :=
  match n.childByFieldName "function" with
  | none => ctx
  | some funcNode =>
      match resolveCallName funcNode ctx.src with
      | none => ctx
      | some callName =>
          if callName = "" then ctx
          else
            let ctx1 : ParseCtx :=
              match truthyScope ctx.currentScope with
              | some scope =>
                  let sourceParts := splitQualifiedName scope
                  let target :=
                    if callName.toList.contains '.' then splitOnLastDot callName
                    else (sourceParts.1, callName)
                  { ctx with references := ctx.references ++
                      [⟨"call", some sourceParts.1, some sourceParts.2,
                        some target.1, some target.2, none, none⟩] }
              | none => ctx
            match n.childByFieldName "arguments" with
            | some args =>
                args.children.foldl (fun c (ch : Option String × TSNode) => recur (some args) ch.2 c) ctx1
            | none => ctx1

/-- Embeds `_process_node`: dispatch on the node type; unknown node types
recurse into all children.  `fuel` bounds the walk's recursion depth and
exceeds the height of every tree considered (Python's own recursion is
likewise stack-bounded); `parent` is the node's parent in the tree. -/
def processNode : Nat → Option TSNode → TSNode → ParseCtx → ParseCtx
  | 0, _, _, ctx => ctx
  | fuel + 1, parent, n, ctx =>
      if n.nodeType == "function_definition" then
        processFunction (processNode fuel) parent n ctx
      else if n.nodeType == "class_definition" then
        processClass (processNode fuel) parent n ctx
      else if n.nodeType == "import_statement" then processImportStmt n ctx
      else if n.nodeType == "import_from_statement" then processImportFrom n ctx
      else if n.nodeType == "call" then processCall (processNode fuel) n ctx
      else n.children.foldl (fun c (ch : Option String × TSNode) => processNode fuel (some n) ch.2 c) ctx

/-- Embeds `PythonParser.parse`: walk the supplied tree-sitter root node and
collect symbols and references. -/
def pythonParse (fuel : Nat) (rootNode : TSNode) (filePath : String)
    (sourceText : String) : PyParsedFile :=
  let ctx : ParseCtx := ⟨filePath, sourceText.toList, [], [], []⟩
  let ctx := processNode fuel none rootNode ctx
  ⟨filePath, "python", ctx.symbols, ctx.references⟩

/-! ## Per-file bulk insert
Embedding of `SymbolRepository.bulk_insert_from_parsed_file`.  ULID
generation is external randomness and enters as the id supplies
`symbolIdOf` and `refIdOf` (one fresh id per inserted row); ULIDs are
26-character strings, in particular Python-truthy, which is what the
`if not source_id` checks test on a found id. -/

/-- Embeds `Reference.get_source_path` (and its target twin): legacy fallback
part. -/
def legacyPathPart (q : Option String) : String :=
  match q with
  | some s => if s ≠ "" ∧ s.toList.contains '.' then (splitOnLastDot s).1 else s
  | none => ""

/-- Embeds `Reference.get_source_name` (and its target twin): legacy fallback
part. -/
def legacyNamePart (q : Option String) : String :=
  match q with
  | some s => if s ≠ "" then String.mk ((splitOnChar '.' s.toList).getLastD []) else ""
  | none => ""

/-- Embeds `Reference.get_source_path`. -/
def get_source_path (r : PyReference) : String :=
  if pyTruthyStr r.sourceFilePath then r.sourceFilePath.getD ""
  else legacyPathPart r.sourceQualifiedName

/-- Embeds `Reference.get_source_name`. -/
def get_source_name (r : PyReference) : String :=
  if pyTruthyStr r.sourceSymbolName then r.sourceSymbolName.getD ""
  else legacyNamePart r.sourceQualifiedName

/-- Embeds `Reference.get_target_path`. -/
def get_target_path (r : PyReference) : String :=
  if pyTruthyStr r.targetFilePath then r.targetFilePath.getD ""
  else legacyPathPart r.targetQualifiedName

/-- Embeds `Reference.get_target_name`. -/
def get_target_name (r : PyReference) : String :=
  if pyTruthyStr r.targetSymbolName then r.targetSymbolName.getD ""
  else legacyNamePart r.targetQualifiedName

/-- The accumulator of the symbol-insertion loop: inserted rows, the
`qualified_name -> id` dictionary (latest assignment first, as dictionary
assignment overwrites), and the count of ids drawn. -/
structure SymbolInsertAcc where
  rows : List SymbolRow
  qualifiedNameToId : List (String × String)
  counter : Nat
deriving Repr

/-- One pass of the symbol loop of `bulk_insert_from_parsed_file`:
symbols with an empty name or qualified name are skipped with a warning;
an inserted symbol draws a fresh id, extends the dictionary, and resolves
its parent through the dictionary built so far. -/
def insertSymbolStep (symbolIdOf : Nat → String) (repoId fileId : String)
    (acc : SymbolInsertAcc) (sym : PySymbol) : SymbolInsertAcc :=
  if sym.name = "" ∨ sym.qualifiedName = "" then acc
  else
    let symbolId := symbolIdOf acc.counter
    let qmap := (sym.qualifiedName, symbolId) :: acc.qualifiedNameToId
    let parentId :=
      if pyTruthyStr sym.parentQualifiedName then
        qmap.lookup (sym.parentQualifiedName.getD "")
      else none
    { rows := acc.rows ++
        [⟨symbolId, fileId, repoId, sym.name, sym.qualifiedName, sym.kind,
          some sym.sourceCode, sym.signature, parentId⟩],
      qualifiedNameToId := qmap,
      counter := acc.counter + 1 }

/-- The symbol loop of `bulk_insert_from_parsed_file`. -/
def insertSymbolsFold (symbolIdOf : Nat → String) (repoId fileId : String)
    (symbols : List PySymbol) : SymbolInsertAcc :=
  symbols.foldl (insertSymbolStep symbolIdOf repoId fileId) ⟨[], [], 0⟩

/-- The source resolution of the reference loop: the concatenation
`source_path + "." + source_name`, then the truthy legacy
`source_qualified_name`, then the bare `source_path`. -/
def resolveRefSource (qmap : List (String × String)) (r : PyReference) : Option String :=
  match qmap.lookup (get_source_path r ++ "." ++ get_source_name r) with
  | some i => some i
  | none =>
      match
        if pyTruthyStr r.sourceQualifiedName then
          qmap.lookup (r.sourceQualifiedName.getD "")
        else none
      with
      | some i => some i
      | none => qmap.lookup (get_source_path r)

/-- The row stored for one resolved reference. -/
def refRowOf (refId repoId sourceId : String) (targetId : Option String)
    (r : PyReference) : ReferenceRow :=
  ⟨refId, repoId, sourceId, targetId,
    get_source_path r, get_source_name r, get_target_path r, get_target_name r,
    r.referenceType⟩

/-- One pass of the reference loop of `bulk_insert_from_parsed_file`: a
reference whose source does not resolve is skipped; the target is
resolved against the same dictionary and may stay NULL. -/
def insertRefStep (refIdOf : Nat → String) (repoId : String)
    (qmap : List (String × String)) (racc : List ReferenceRow × Nat)
    (r : PyReference) : List ReferenceRow × Nat :=
  match resolveRefSource qmap r with
  | none => racc
  | some sourceId =>
      let targetId := qmap.lookup (get_target_path r ++ "." ++ get_target_name r)
      (racc.1 ++ [refRowOf (refIdOf racc.2) repoId sourceId targetId r], racc.2 + 1)

/-- The reference loop of `bulk_insert_from_parsed_file`. -/
def insertRefsFold (refIdOf : Nat → String) (repoId : String)
    (qmap : List (String × String)) (refs : List PyReference) :
    List ReferenceRow × Nat :=
  refs.foldl (insertRefStep refIdOf repoId qmap) ([], 0)

/-- Embeds `bulk_insert_from_parsed_file`: existing rows of the file are deleted
first (references cascade), so the returned pair is the file's full row
set afterwards. -/
def bulk_insert_from_parsed_file (symbolIdOf refIdOf : Nat → String)
    (repoId fileId : String) (pf : PyParsedFile) : List SymbolRow × List ReferenceRow :=
  let acc := insertSymbolsFold symbolIdOf repoId fileId pf.symbols
  (acc.rows, (insertRefsFold refIdOf repoId acc.qualifiedNameToId pf.references).1)

/-- The file row `ParsingService._persist_parsed_file` upserts for a
parsed file (`FileRepository.upsert`, keyed on repo and relative path):
one row carrying the parse's relative path and language. -/
def fileRowForParsed (fileId repoId : String) (pf : PyParsedFile) : FileRow :=
  ⟨fileId, repoId, pf.relativePath, pf.language⟩

/-! ### The concrete scenario of the single-Python-function claim
The tree-sitter-python parse tree of the 20-byte source
`def foo():\n    bar()` in file `a/b.py`. -/

def demoSource : String := "def foo():\n    bar()"

def demoFunctionNameNode : TSNode := .node "identifier" 4 7 []

def demoCallFunctionNode : TSNode := .node "identifier" 15 18 []

def demoCallNode : TSNode :=
  .node "call" 15 20
    [(some "function", demoCallFunctionNode),
     (some "arguments", .node "argument_list" 18 20
        [(none, .node "(" 18 19 []), (none, .node ")" 19 20 [])])]

def demoBlockNode : TSNode :=
  .node "block" 15 20 [(none, .node "expression_statement" 15 20 [(none, demoCallNode)])]

def demoFunctionDefNode : TSNode :=
  .node "function_definition" 0 20
    [(none, .node "def" 0 3 []),
     (some "name", demoFunctionNameNode),
     (some "parameters", .node "parameters" 7 9
        [(none, .node "(" 7 8 []), (none, .node ")" 8 9 [])]),
     (none, .node ":" 9 10 []),
     (some "body", demoBlockNode)]

def demoModuleNode : TSNode := .node "module" 0 20 [(none, demoFunctionDefNode)]

/-! ### Concrete repository states used to evaluate the claims -/

/-- The ids of the pending jobs of a job table. -/
def pendingIds (jobs : List JobRow) : List String :=
  (jobs.filter fun j => j.status == "pending").map JobRow.id

/-- A flow step as the LLM returns it. -/
def demoAiStep : AiStep := ⟨1, "Handle request", "The entry point runs.", none, [], []⟩

/-- An entry-point `nodes_with_code` record. -/
def demoEntryNode : NodeWithCode :=
  ⟨"E1", "entry", "m.entry", 0, "def entry(): pass", "def entry()", "python", "m.py"⟩

/-- A band node whose name and file path match the snippet below but
whose qualified name does not. -/
def nodeNameFileMatch : NodeWithCode :=
  ⟨"N0", "f", "x.g", 1, "CODE0", "", "python", "a.py"⟩

/-- A band node whose qualified name matches the snippet below exactly. -/
def nodeQualifiedMatch : NodeWithCode :=
  ⟨"N1", "f", "a.f", 1, "CODE1", "", "python", "other.py"⟩

/-- A snippet reference naming qualified name `a.f`, symbol `f`, file
`a.py`. -/
def demoSnippetRef : SnippetRef := ⟨some "f", some "a.f", some "a.py", none, none⟩

/-- Two files of one repository whose relative paths both contain the
substring `src`. -/
def fileRowA : FileRow := ⟨"FA", "r1", "src/a.py", "python"⟩

def fileRowB : FileRow := ⟨"FB", "r1", "src/b.py", "python"⟩

/-- Two symbols named `bar`, in distinct matching files, with id order
`01 < 02`. -/
def symbolRowLowId : SymbolRow :=
  ⟨"01", "FA", "r1", "bar", "src.a.bar", "function", none, none, none⟩

def symbolRowHighId : SymbolRow :=
  ⟨"02", "FB", "r1", "bar", "src.b.bar", "function", none, none, none⟩

/-- An unresolved reference whose target address (`src`, `bar`) matches
both symbols above. -/
def unresolvedRef : ReferenceRow :=
  ⟨"RR", "r1", "S9", none, "m", "caller", "src", "bar", "call"⟩

/-- A resolved reference edge from symbol `A` to symbol `B`. -/
def edgeAB : ReferenceRow :=
  ⟨"R1", "r1", "A", some "B", "m.a", "fa", "m.b", "fb", "call"⟩

/-- An unresolved edge out of symbol `A`. -/
def edgeAExternal : ReferenceRow :=
  ⟨"R2", "r1", "A", none, "m.a", "fa", "ext.mod", "helper", "call"⟩

/-- The symbol row `B`, the target of `edgeAB`. -/
def symbolRowB : SymbolRow :=
  ⟨"B", "FB", "r1", "fb", "m.b.fb", "function", some "def fb(): pass", none, none⟩

/-- A single pending job. -/
def pendingJobRow : JobRow := ⟨"J1", "r1", "pending", none, 0, none⟩

section ClaimTheorems

/-! ### Shared helper lemmas -/

/-- Every supported extension maps to a registered parser: concrete fact
about the default registry's tables. -/
theorem lookup_supported_registered (e : String) (he : e ∈ supported_extensions) :
    ∃ l, extensionMap.lookup e = some l ∧ registeredLanguages.contains l = true := by
  simp only [supported_extensions, extensionMap, List.map_cons, List.map_nil,
    List.mem_cons, List.not_mem_nil, or_false] at he
  rcases he with rfl | rfl | rfl | rfl | rfl | rfl | rfl | rfl <;> decide

theorem backoffMultiplier_nonneg (n : Nat) : 0 ≤ backoffMultiplier n := by
  induction n with
  | zero => norm_num [backoffMultiplier]
  | succ n ih =>
      simp only [backoffMultiplier, le_min_iff]
      constructor
      · positivity
      · norm_num

theorem backoffMultiplier_le_ten (n : Nat) : backoffMultiplier n ≤ 10 := by
  cases n with
  | zero => norm_num [backoffMultiplier]
  | succ n => exact min_le_right _ _

/-- The head of a filtered list is the first element satisfying the
predicate. -/
theorem head?_filter_eq_find? {α : Type} (p : α → Bool) (l : List α) :
    (l.filter p).head? = l.find? p := by
  induction l with
  | nil => rfl
  | cons a l ih => by_cases h : p a <;> simp [List.filter_cons, List.find?_cons, h, ih]

/-- The downstream CTE generates a superset of rows under a larger depth
bound. -/
theorem downstreamRows_mono (refs : List ReferenceRow) (symbolId : String)
    {d1 d2 : Nat} (h : d1 ≤ d2) :
    ∀ x ∈ downstreamRows refs symbolId d1, x ∈ downstreamRows refs symbolId d2 := by
  intro x hx
  simp only [downstreamRows, List.mem_flatMap, List.mem_range] at hx ⊢
  obtain ⟨k, hk, hmem⟩ := hx
  exact ⟨k, by omega, hmem⟩

theorem target_beq_and_isSome (t : String) (x : ReferenceRow) :
    (x.targetSymbolId == some t && x.targetSymbolId.isSome) = (x.targetSymbolId == some t) := by
  cases h : x.targetSymbolId <;> simp [h]

/-- Removing the unresolved references changes no level of the upstream
CTE. -/
theorem upstreamLevels_filter (refs : List ReferenceRow) (t : String) (k : Nat) :
    upstreamLevels (refs.filter fun x => x.targetSymbolId.isSome) t k =
      upstreamLevels refs t k := by
  induction k with
  | zero =>
      simp [upstreamLevels, upstreamBase, List.filter_filter, target_beq_and_isSome]
  | succ k ih =>
      simp [upstreamLevels, upstreamStep, ih, List.filter_filter, target_beq_and_isSome]

theorem upstreamRows_filter (refs : List ReferenceRow) (t : String) (m : Nat) :
    upstreamRows (refs.filter fun x => x.targetSymbolId.isSome) t m = upstreamRows refs t m := by
  have h : upstreamLevels (refs.filter fun x => x.targetSymbolId.isSome) t =
      upstreamLevels refs t := funext (upstreamLevels_filter refs t)
  simp [upstreamRows, h]

theorem get_upstream_filter (syms : List SymbolRow) (refs : List ReferenceRow)
    (t : String) (m : Nat) :
    get_upstream syms (refs.filter fun x => x.targetSymbolId.isSome) t m =
      get_upstream syms refs t m := by
  simp [get_upstream, upstreamRows_filter]

/-- Rows with a NULL symbol id contribute nothing to the recursive member
of the downstream CTE. -/
theorem downstreamStep_filter (refs : List ReferenceRow) (prev : List DownstreamRow) :
    downstreamStep refs (prev.filter fun d => d.symbolId.isSome) = downstreamStep refs prev := by
  induction prev with
  | nil => rfl
  | cons d l ih =>
      cases h : d.symbolId <;>
        simp [downstreamStep, List.filter_cons, h, List.flatMap_cons] at ih ⊢ <;>
        simpa [downstreamStep] using ih

theorem selectNextPending_foldl_mem (l : List JobRow) (acc : Option JobRow) (j : JobRow)
    (h : l.foldl (fun acc j =>
        match acc with
        | none => some j
        | some a => if j.createdAt < a.createdAt then some j else acc) acc = some j) :
    acc = some j ∨ j ∈ l := by
  induction l generalizing acc with
  | nil => exact Or.inl h
  | cons a l ih =>
      rcases ih _ h with hstep | hmem
      · cases acc with
        | none =>
            dsimp only at hstep
            simp only [Option.some.injEq] at hstep
            exact Or.inr (hstep ▸ List.mem_cons_self a l)
        | some b =>
            dsimp only at hstep
            by_cases hlt : a.createdAt < b.createdAt
            · rw [if_pos hlt] at hstep
              simp only [Option.some.injEq] at hstep
              exact Or.inr (hstep ▸ List.mem_cons_self a l)
            · rw [if_neg hlt] at hstep
              exact Or.inl hstep
      · exact Or.inr (List.mem_cons_of_mem _ hmem)

theorem selectNextPending_some (jobs : List JobRow) (j : JobRow)
    (h : selectNextPending jobs = some j) : j ∈ jobs ∧ j.status = "pending" := by
  rcases selectNextPending_foldl_mem _ none j h with h' | hmem
  · cases h'
  · have h2 := List.mem_filter.mp hmem
    exact ⟨h2.1, by simpa using h2.2⟩

theorem claim_next_ids (now : Nat) (w : String) (jobs : List JobRow) :
    (claim_next now w jobs).2.map JobRow.id = jobs.map JobRow.id := by
  unfold claim_next
  cases h : selectNextPending jobs with
  | none => rfl
  | some j =>
      simp only [List.map_map]
      apply List.map_congr_left
      intro x hx
      simp only [Function.comp_apply]
      by_cases hid : x.id == j.id
      · simp only [hid, if_true]
        exact (beq_iff_eq.mp hid).symm
      · simp [hid]

theorem claim_next_some (now : Nat) (w : String) (jobs : List JobRow) (jr : JobRow)
    (h : (claim_next now w jobs).1 = some jr) :
    jr.status = "parsing" ∧ jr.workerId = some w ∧ jr.startedAt = some now ∧
      jr.id ∈ pendingIds jobs := by
  unfold claim_next at h
  cases hsel : selectNextPending jobs with
  | none => rw [hsel] at h; cases h
  | some j =>
      rw [hsel] at h
      simp only [Option.some.injEq] at h
      obtain ⟨hj, hp⟩ := selectNextPending_some jobs j hsel
      subst h
      refine ⟨rfl, rfl, rfl, ?_⟩
      simp only [pendingIds, List.mem_map, List.mem_filter]
      exact ⟨j, ⟨hj, by simp [hp]⟩, rfl⟩

theorem claim_next_pending (now : Nat) (w : String) (jobs : List JobRow) (x : String)
    (hx : x ∈ pendingIds (claim_next now w jobs).2) :
    x ∈ pendingIds jobs ∧ ∀ jr, (claim_next now w jobs).1 = some jr → x ≠ jr.id := by
  unfold claim_next at hx ⊢
  cases hsel : selectNextPending jobs with
  | none =>
      rw [hsel] at hx
      exact ⟨hx, by intro jr h; cases h⟩
  | some j =>
      rw [hsel] at hx
      simp only [pendingIds, List.mem_map, List.mem_filter] at hx
      obtain ⟨y, ⟨hy, hyp⟩, rfl⟩ := hx
      obtain ⟨x0, hx0, hupd⟩ := hy
      subst hupd
      by_cases hid : x0.id == j.id
      · simp [hid] at hyp
      · simp only [hid, if_neg, Bool.false_eq_true, not_false_eq_true] at hyp ⊢
        constructor
        · simp only [pendingIds, List.mem_map, List.mem_filter]
          exact ⟨x0, ⟨hx0, by simpa using hyp⟩, rfl⟩
        · intro jr hjr
          simp only [Option.some.injEq] at hjr
          subst hjr
          simpa using hid

theorem runClaims_cons (w : String) (t : Nat) (cs : List (String × Nat))
    (jobs : List JobRow) :
    runClaims ((w, t) :: cs) jobs =
      ((claim_next t w jobs).1 :: (runClaims cs (claim_next t w jobs).2).1,
        (runClaims cs (claim_next t w jobs).2).2) := rfl

theorem runClaims_ids (cs : List (String × Nat)) (jobs : List JobRow) :
    (runClaims cs jobs).2.map JobRow.id = jobs.map JobRow.id := by
  induction cs generalizing jobs with
  | nil => rfl
  | cons c cs ih =>
      obtain ⟨w, t⟩ := c
      simp only [runClaims]
      rw [ih]
      exact claim_next_ids t w jobs

theorem runClaims_returned_sub (cs : List (String × Nat)) (jobs : List JobRow) (x : String)
    (hx : x ∈ (runClaims cs jobs).1.filterMap fun o => Option.map JobRow.id o) :
    x ∈ pendingIds jobs := by
  induction cs generalizing jobs with
  | nil => simp [runClaims] at hx
  | cons c cs ih =>
      obtain ⟨w, t⟩ := c
      rw [runClaims_cons] at hx
      cases hclaim : (claim_next t w jobs).1 with
      | none =>
          rw [hclaim] at hx
          simp only [List.filterMap_cons, Option.map_none'] at hx
          exact (claim_next_pending t w jobs x (ih _ hx)).1
      | some jr =>
          rw [hclaim] at hx
          simp only [List.filterMap_cons, Option.map_some', List.mem_cons] at hx
          rcases hx with rfl | hx
          · exact (claim_next_some t w jobs jr hclaim).2.2.2
          · exact (claim_next_pending t w jobs x (ih _ hx)).1

theorem runClaims_nodup (cs : List (String × Nat)) (jobs : List JobRow) :
    ((runClaims cs jobs).1.filterMap fun o => Option.map JobRow.id o).Nodup := by
  induction cs generalizing jobs with
  | nil => simp [runClaims]
  | cons c cs ih =>
      obtain ⟨w, t⟩ := c
      rw [runClaims_cons]
      cases hclaim : (claim_next t w jobs).1 with
      | none =>
          dsimp only
          simpa only [List.filterMap_cons, Option.map_none'] using ih _
      | some jr =>
          dsimp only
          simp only [List.filterMap_cons, Option.map_some']
          refine List.Nodup.cons ?_ (ih _)
          intro hmem
          exact (claim_next_pending t w jobs jr.id
            (runClaims_returned_sub cs _ jr.id hmem)).2 jr hclaim rfl

theorem runClaims_results (cs : List (String × Nat)) (jobs : List JobRow) :
    ∀ p ∈ cs.zip (runClaims cs jobs).1, ∀ j, p.2 = some j →
      j.status = "parsing" ∧ j.workerId = some p.1.1 ∧ j.startedAt = some p.1.2 := by
  induction cs generalizing jobs with
  | nil => simp
  | cons c cs ih =>
      obtain ⟨w, t⟩ := c
      rw [runClaims_cons]
      simp only [List.zip_cons_cons, List.mem_cons]
      rintro p (rfl | hp) j hj
      · have h := claim_next_some t w jobs j hj
        exact ⟨h.1, h.2.1, h.2.2.1⟩
      · exact ih _ p hp j hj

theorem insertSymbolStep_inv (f : Nat → String) (repoId fileId : String)
    (acc : SymbolInsertAcc) (sym : PySymbol)
    (h : ∀ q i, (q, i) ∈ acc.qualifiedNameToId → i ∈ acc.rows.map SymbolRow.id) :
    ∀ q i, (q, i) ∈ (insertSymbolStep f repoId fileId acc sym).qualifiedNameToId →
      i ∈ (insertSymbolStep f repoId fileId acc sym).rows.map SymbolRow.id := by
  intro q i hqi
  unfold insertSymbolStep at hqi ⊢
  by_cases hskip : sym.name = "" ∨ sym.qualifiedName = ""
  · rw [if_pos hskip] at hqi ⊢
    exact h q i hqi
  · rw [if_neg hskip] at hqi ⊢
    dsimp only at hqi ⊢
    simp only [List.map_append, List.mem_append]
    rcases List.mem_cons.mp hqi with heq | htail
    · right
      simp only [Prod.mk.injEq] at heq
      simp [heq.2]
    · exact Or.inl (h q i htail)

theorem insertSymbolsFoldAux (f : Nat → String) (repoId fileId : String)
    (symbols : List PySymbol) :
    ∀ acc, (∀ q i, (q, i) ∈ acc.qualifiedNameToId → i ∈ acc.rows.map SymbolRow.id) →
      ∀ q i,
        (q, i) ∈ (symbols.foldl (insertSymbolStep f repoId fileId) acc).qualifiedNameToId →
        i ∈ (symbols.foldl (insertSymbolStep f repoId fileId) acc).rows.map SymbolRow.id := by
  induction symbols with
  | nil => intro acc h; exact h
  | cons s l ih => intro acc h; exact ih _ (insertSymbolStep_inv f repoId fileId acc s h)

/-- Every id the per-file dictionary can hand out is the id of a symbol
row inserted for this file. -/
theorem insertSymbolsFold_inv (f : Nat → String) (repoId fileId : String)
    (symbols : List PySymbol) :
    ∀ q i, (q, i) ∈ (insertSymbolsFold f repoId fileId symbols).qualifiedNameToId →
      i ∈ (insertSymbolsFold f repoId fileId symbols).rows.map SymbolRow.id :=
  insertSymbolsFoldAux f repoId fileId symbols ⟨[], [], 0⟩ (by intro q i h; cases h)

theorem mem_of_lookup_eq_some {k v : String} :
    ∀ {l : List (String × String)}, l.lookup k = some v → (k, v) ∈ l := by
  intro l h
  induction l with
  | nil => cases h
  | cons a l ih =>
      obtain ⟨kk, vv⟩ := a
      by_cases hk : k = kk
      · subst hk
        simp only [List.lookup, beq_self_eq_true, Option.some.injEq] at h
        subst h
        exact List.mem_cons_self _ _
      · have hb : (k == kk) = false := by simp [hk]
        simp only [List.lookup, hb] at h
        exact List.mem_cons_of_mem _ (ih h)

theorem resolveRefSource_mem (qmap : List (String × String)) (r : PyReference) (sid : String)
    (h : resolveRefSource qmap r = some sid) : ∃ q, (q, sid) ∈ qmap := by
  unfold resolveRefSource at h
  cases h1 : qmap.lookup (get_source_path r ++ "." ++ get_source_name r) with
  | some i =>
      rw [h1] at h
      cases h
      exact ⟨_, mem_of_lookup_eq_some h1⟩
  | none =>
      rw [h1] at h
      cases h2 :
        (if pyTruthyStr r.sourceQualifiedName then
            qmap.lookup (r.sourceQualifiedName.getD "")
          else none) with
      | some i =>
          rw [h2] at h
          cases h
          by_cases ht : pyTruthyStr r.sourceQualifiedName
          · rw [if_pos ht] at h2
            exact ⟨_, mem_of_lookup_eq_some h2⟩
          · rw [if_neg ht] at h2
            cases h2
      | none =>
          rw [h2] at h
          exact ⟨_, mem_of_lookup_eq_some h⟩

theorem insertRefsFoldAux_len (refIdOf : Nat → String) (repoId : String)
    (qmap : List (String × String)) (refs : List PyReference) :
    ∀ racc, (refs.foldl (insertRefStep refIdOf repoId qmap) racc).1.length =
      racc.1.length + (refs.filter fun r => (resolveRefSource qmap r).isSome).length := by
  induction refs with
  | nil => intro racc; simp
  | cons r l ih =>
      intro racc
      simp only [List.foldl_cons, List.filter_cons]
      cases h : resolveRefSource qmap r with
      | none => simp [insertRefStep, h, ih]
      | some sid =>
          simp only [insertRefStep, h, Option.isSome_some, if_true]
          rw [ih]
          simp only [List.length_append, List.length_cons, List.length_nil,
            List.length_singleton]
          omega

theorem insertRefsFoldAux_mem (refIdOf : Nat → String) (repoId : String)
    (qmap : List (String × String)) (refs : List PyReference) :
    ∀ racc rr, rr ∈ (refs.foldl (insertRefStep refIdOf repoId qmap) racc).1 →
      rr ∈ racc.1 ∨ ∃ r ∈ refs, ∃ i sid,
        resolveRefSource qmap r = some sid ∧
        rr = refRowOf i repoId sid
          (qmap.lookup (get_target_path r ++ "." ++ get_target_name r)) r := by
  induction refs with
  | nil => intro racc rr h; exact Or.inl h
  | cons r l ih =>
      intro racc rr h
      simp only [List.foldl_cons] at h
      rcases ih _ rr h with hmem | ⟨r2, hr2, i, sid, hres, heq⟩
      · cases hres : resolveRefSource qmap r with
        | none =>
            rw [insertRefStep, hres] at hmem
            exact Or.inl hmem
        | some sid =>
            rw [insertRefStep, hres] at hmem
            dsimp only at hmem
            rcases List.mem_append.mp hmem with hl | hr
            · exact Or.inl hl
            · right
              refine ⟨r, List.mem_cons_self r l, refIdOf racc.2, sid, hres, ?_⟩
              simpa using hr
      · exact Or.inr ⟨r2, List.mem_cons_of_mem r hr2, i, sid, hres, heq⟩

/-! ### The claims -/

/-- C1 (counterexample): on one stored state — two symbols named `bar` in
matching files, tabled in the order higher-id-first — the resolver
assigns the higher id `02`, not the id-order-first `01`; on the permuted
state holding exactly the same rows it assigns `01`.  The subquery has no
`ORDER BY` before its `LIMIT 1`, so the assignment is not an
ordered-by-id tie-break and is not determined by the stored row set. -/
theorem c1_cross_file_tiebreak_counterexample :
    resolve_cross_file_references [symbolRowHighId, symbolRowLowId] [fileRowA, fileRowB]
        "r1" [unresolvedRef] =
      [{ unresolvedRef with targetSymbolId := some "02" }] ∧
    resolve_cross_file_references [symbolRowLowId, symbolRowHighId] [fileRowA, fileRowB]
        "r1" [unresolvedRef] =
      [{ unresolvedRef with targetSymbolId := some "01" }] ∧
    [symbolRowHighId, symbolRowLowId].Perm [symbolRowLowId, symbolRowHighId] ∧
    symbolRowHighId.id ≠ symbolRowLowId.id := by
  refine ⟨by decide, by decide, List.Perm.swap _ _ _, by decide⟩

/-- C1 (amended): `resolve_cross_file_references` updates every reference
of the repo with a NULL target and a nonempty candidate set to the FIRST
candidate in the table scan order — `find?` over the stored symbol
order — with no ordering by id; the result is deterministic only relative
to a fixed scan order. -/
theorem c1_cross_file_first_match_in_scan_order (syms : List SymbolRow)
    (files : List FileRow) (repoId : String) (refs : List ReferenceRow) (r : ReferenceRow)
    (hr : r ∈ refs) (hrepo : r.repoId = repoId) (hnull : r.targetSymbolId = none)
    (hcand : crossFileCandidates syms files repoId r ≠ []) :
    (crossFileCandidates syms files repoId r).head? =
      (syms.find? fun s =>
          s.repoId == repoId && s.name == r.targetSymbolName &&
            (files.filter fun f => f.id == s.fileId).any fun f =>
              containsSubstring f.relativePath
                (replaceChar '.' '/' r.targetFilePath)).map SymbolRow.id ∧
    { r with targetSymbolId := (crossFileCandidates syms files repoId r).head? } ∈
      resolve_cross_file_references syms files repoId refs := by
  constructor
  · rw [crossFileCandidates, List.head?_map, head?_filter_eq_find?]
  · simp only [resolve_cross_file_references, List.mem_map]
    refine ⟨r, hr, ?_⟩
    rw [if_pos]
    simp [hrepo, hnull, hcand, List.isEmpty_iff]

/-- C1 (witness): the amended theorem evaluated on the two-symbol state
in id order: the first candidate is `01` and the updated reference is in
the resolver's output. -/
theorem c1_cross_file_tiebreak_witness :
    { unresolvedRef with targetSymbolId := some "01" } ∈
      resolve_cross_file_references [symbolRowLowId, symbolRowHighId] [fileRowA, fileRowB]
        "r1" [unresolvedRef] := by
  have h := (c1_cross_file_first_match_in_scan_order [symbolRowLowId, symbolRowHighId]
    [fileRowA, fileRowB] "r1" [unresolvedRef] unresolvedRef (by decide) rfl rfl
    (by decide)).2
  have hh : (crossFileCandidates [symbolRowLowId, symbolRowHighId] [fileRowA, fileRowB]
      "r1" unresolvedRef).head? = some "01" := by decide
  rwa [hh] at h

/-- C2 (counterexample): for an entry point with no downstream nodes the
band of iteration 1 is empty, and `generate_flow` fails (`none`, i.e.
`raise ValueError("No flow steps generated")`), even though the LLM
oracle would return a valid one-step response — refuting the claim that
iteration 1 still runs and produces a one-iteration flow. -/
theorem c2_empty_band_counterexample :
    generate_flow (fun _ => []) (fun _ => none)
      (fun _ _ _ => some ⟨some "Entry Flow", some "summary", [demoAiStep]⟩)
      demoEntryNode = none := by
  decide

/-- C2 (amended): an empty depth band aborts the iteration loop at every
iteration, including iteration 1 — the break carries no `k > 1` guard —
so when the iteration-1 band is empty the loop exits with no steps, no
LLM response is ever recorded, and generation fails for every LLM
oracle. -/
theorem c2_empty_band_aborts_any_iteration (graph : Nat → List FlowNode)
    (enrich : FlowNode → Option NodeWithCode)
    (llm : Nat → List NodeWithCode → Option (List AiStep) → Option AiResponse)
    (entryNode : NodeWithCode)
    (hband : flowBand graph 1 = []) :
    generate_flow graph enrich llm entryNode = none := by
  simp [generate_flow, flowIterLoop, hband, pyTruthySteps]

/-- C2 (witness): the amended theorem evaluated at the empty graph. -/
theorem c2_empty_band_witness :
    generate_flow (fun _ => []) (fun _ => some demoEntryNode) (fun _ _ _ => none)
      demoEntryNode = none :=
  c2_empty_band_aborts_any_iteration (fun _ => [])
    (fun _ => some demoEntryNode) (fun _ _ _ => none) demoEntryNode (by decide)

/-- C3 (counterexample): with an earlier band node matching only on
(symbol name, file path) and a later node matching the snippet's
qualified name exactly, the single matching pass picks the earlier node's
source (`CODE0`), not the exact qualified-name match (`CODE1`) — refuting
the strictly-ordered-strategies claim. -/
theorem c3_snippet_resolution_counterexample :
    snippetNodeMatch demoSnippetRef nodeQualifiedMatch = true ∧
    resolveSnippetRef [nodeNameFileMatch, nodeQualifiedMatch] demoSnippetRef =
      { demoSnippetRef with code := some "CODE0" } ∧
    resolveSnippetRef [nodeNameFileMatch, nodeQualifiedMatch] demoSnippetRef ≠
      { demoSnippetRef with code := some nodeQualifiedMatch.sourceCode } := by
  decide

/-- C3 (amended): snippet resolution is a single pass over the band's
nodes in order, accepting the first node that matches on qualified name
OR on (symbol name, file path) — the two tests are one disjunction, not
ordered strategies; the symbol-name-anywhere pass only runs as a later
fallback.  For every decomposition of the band into a prefix with no
match, a first matching node `n`, and a remainder, the snippet's code
becomes `n`'s source. -/
theorem c3_snippet_single_pass_first_match (pre post : List NodeWithCode)
    (n : NodeWithCode) (ref : SnippetRef)
    (hpre : ∀ m ∈ pre, snippetNodeMatch ref m = false)
    (hn : snippetNodeMatch ref n = true)
    (hcode : n.sourceCode ≠ "")
    (hlr : ref.lineRange = none) :
    resolveSnippetRef (pre ++ n :: post) ref = { ref with code := some n.sourceCode } := by
  have hfind : (pre ++ n :: post).find? (snippetNodeMatch ref) = some n := by
    induction pre with
    | nil => simp [List.find?_cons, hn]
    | cons a l ih =>
        have ha := hpre a (by simp)
        simp only [List.cons_append, List.find?_cons, ha, cond_false]
        exact ih fun m hm => hpre m (by simp [hm])
  have hsrc : findSnippetSource (pre ++ n :: post) ref = some n.sourceCode := by
    simp [findSnippetSource, hfind]
  simp [resolveSnippetRef, hsrc, hlr, pyTruthyStr, hcode]

/-- C3 (witness): the amended theorem evaluated at a one-node band. -/
theorem c3_snippet_resolution_witness :
    resolveSnippetRef [nodeQualifiedMatch] demoSnippetRef =
      { demoSnippetRef with code := some nodeQualifiedMatch.sourceCode } := by
  have h := c3_snippet_single_pass_first_match [] [] nodeQualifiedMatch demoSnippetRef
    (by simp) (by decide) (by decide) rfl
  simpa using h

/-- C4 (counterexample): the file `A.PY` of size 10 is admitted to the
manifest (its lowercased suffix `.py` is registered and it is small), yet
the registry's case-sensitive extension lookup resolves no parser for
it — refuting "every admitted file can be resolved to a parser by the
registry's extension lookup". -/
theorem c4_discovery_admission_counterexample :
    (⟨"A.PY", 10⟩ : DiscoveredFile) ∈ discover_files 1000000 [⟨"A.PY", 10⟩] ∧
    get_parser_for_file "A.PY" = none := by
  constructor
  · simp only [discover_files, List.mem_mergeSort, List.mem_filter]
    decide
  · decide

/-- C4 (amended): a walked file is admitted to the manifest if and only
if the LOWERCASED `pathlib` suffix of its basename is a registered
extension and its byte size is at most the configured cap; and an
admitted file resolves to a parser by the registry's extension lookup
provided the registry's (case-sensitive, last-dot-part) extension of its
path agrees with that pathlib suffix and the suffix is already
lowercase — admitted files with upper-case letters in the extension may
resolve to no parser. -/
theorem c4_discovery_admission_lowercased (maxFileSizeBytes : Nat)
    (walked : List DiscoveredFile) (f : DiscoveredFile) :
    (f ∈ discover_files maxFileSizeBytes walked ↔
      f ∈ walked ∧ strToLower (pySuffix (baseName f.relativePath)) ∈ supported_extensions ∧
        f.sizeBytes ≤ maxFileSizeBytes) ∧
    (strToLower (pySuffix (baseName f.relativePath)) = pySuffix (baseName f.relativePath) →
      registryGetExtension f.relativePath = pySuffix (baseName f.relativePath) →
      f ∈ discover_files maxFileSizeBytes walked →
      get_parser_for_file f.relativePath ≠ none) := by
  have hmem : f ∈ discover_files maxFileSizeBytes walked ↔
      f ∈ walked ∧ strToLower (pySuffix (baseName f.relativePath)) ∈ supported_extensions ∧
        f.sizeBytes ≤ maxFileSizeBytes := by
    simp [discover_files, List.mem_mergeSort, List.mem_filter, fileAdmitted,
      Bool.and_eq_true, decide_eq_true_iff, Nat.not_lt, and_assoc]
  refine ⟨hmem, fun hlower hreg hf => ?_⟩
  have hsup := (hmem.mp hf).2.1
  rw [hlower] at hsup
  rw [← hreg] at hsup
  obtain ⟨l, hl, hr⟩ := lookup_supported_registered _ hsup
  have hmem2 : l ∈ registeredLanguages := by simpa using hr
  simp [get_parser_for_file, hl, hr, hmem2]

/-- C4 (witness): the amended theorem evaluated at the admitted file
`a/b.py`, which does resolve to a parser. -/
theorem c4_discovery_admission_witness :
    get_parser_for_file "a/b.py" ≠ none ∧
    (⟨"a/b.py", 5⟩ : DiscoveredFile) ∈ discover_files 1000000 [⟨"a/b.py", 5⟩] := by
  have h := c4_discovery_admission_lowercased 1000000 [⟨"a/b.py", 5⟩] ⟨"a/b.py", 5⟩
  have hm : (⟨"a/b.py", 5⟩ : DiscoveredFile) ∈ discover_files 1000000 [⟨"a/b.py", 5⟩] :=
    h.1.mpr ⟨by decide, by decide, by decide⟩
  exact ⟨h.2 (by decide) (by decide) hm, hm⟩

/-- C5 (counterexample): with the configured poll interval 2.0 s, after
six consecutive empty polls the multiplier has reached its cap 10 and
the next wait is 20 s — it exceeds 10 s and differs from
`min(poll_interval x backoff, 10 s)`; the code caps the MULTIPLIER at 10,
not the wait at 10 seconds. -/
theorem c5_backoff_wait_counterexample :
    waitTime 2 6 = 20 ∧ ¬ waitTime 2 6 ≤ 10 ∧
    waitTime 2 6 ≠ min (2 * backoffMultiplier 6) 10 := by
  norm_num [waitTime, backoffMultiplier, min_def]

/-- C5 (amended): the idle wait equals poll_interval x backoff_multiplier
where the multiplier starts at 1, is multiplied by 1.5 after each empty
poll, and is capped at 10; hence the wait never exceeds
10 x poll_interval (not 10 seconds), and it coincides with the claimed
`min(poll_interval x backoff, 10 s)` whenever poll_interval <= 1 s. -/
theorem c5_backoff_wait_capped_by_multiplier (poll : ℚ) (hpoll : 0 ≤ poll) (n : Nat) :
    backoffMultiplier 0 = 1 ∧
    backoffMultiplier (n + 1) = min (backoffMultiplier n * (3 / 2)) 10 ∧
    backoffMultiplier n ≤ 10 ∧
    waitTime poll n ≤ 10 * poll ∧
    (poll ≤ 1 → waitTime poll n = min (poll * backoffMultiplier n) 10) := by
  refine ⟨rfl, rfl, backoffMultiplier_le_ten n, ?_, fun h1 => ?_⟩
  · calc waitTime poll n = poll * backoffMultiplier n := rfl
      _ ≤ poll * 10 := by
          exact mul_le_mul_of_nonneg_left (backoffMultiplier_le_ten n) hpoll
      _ = 10 * poll := mul_comm _ _
  · have hb := backoffMultiplier_nonneg n
    have hten : poll * backoffMultiplier n ≤ 10 := by
      calc poll * backoffMultiplier n ≤ 1 * backoffMultiplier n :=
            mul_le_mul_of_nonneg_right h1 hb
        _ = backoffMultiplier n := one_mul _
        _ ≤ 10 := backoffMultiplier_le_ten n
    simpa [waitTime] using (min_eq_left hten).symm

/-- C5 (witness): the amended theorem evaluated at poll interval 1/2 and
three empty polls. -/
theorem c5_backoff_wait_witness :
    (0 : ℚ) ≤ 1 / 2 ∧ waitTime (1 / 2) 3 ≤ 10 * (1 / 2 : ℚ) :=
  ⟨by norm_num, (c5_backoff_wait_capped_by_multiplier (1 / 2) (by norm_num) 3).2.2.2.1⟩

/-- C6: downstream traversal is monotone in its depth bound — for depths
`d1 <= d2 <= 10`, every row of `get_downstream` at bound `d1` (hence every
element keyed by its id or by (target_file_path, target_symbol_name)
together with its reference_type) also occurs at bound `d2`. -/
theorem c6_downstream_depth_monotone (syms : List SymbolRow) (refs : List ReferenceRow)
    (symbolId : String) (d1 d2 : Nat) (h12 : d1 ≤ d2) (h10 : d2 ≤ 10) :
    ∀ entry ∈ get_downstream syms refs symbolId d1,
      entry ∈ get_downstream syms refs symbolId d2 := by
  intro e he
  simp only [get_downstream, List.mem_map, List.mem_dedup] at he ⊢
  obtain ⟨res, hres, rfl⟩ := he
  obtain ⟨row, hrow, rfl⟩ := hres
  exact ⟨_, ⟨row, downstreamRows_mono refs symbolId h12 row hrow, rfl⟩, rfl⟩

/-- C6 (witness): the theorem evaluated on a one-edge graph at depths
1 <= 2. -/
theorem c6_downstream_depth_monotone_witness :
    (⟨some "B", "fb", some "m.b.fb", some "function", some "def fb(): pass", none, 1, "call",
        "m.b", "fb"⟩ : DownstreamEntry) ∈ get_downstream [symbolRowB] [edgeAB] "A" 2 :=
  c6_downstream_depth_monotone [symbolRowB] [edgeAB] "A" 1 2 (by decide) (by decide) _
    (by decide)

/-- C7: parsing `a/b.py` containing `def foo():\n    bar()` and persisting
the result yields exactly one file row (relative path `a/b.py`, language
`python`), exactly one symbol (`foo`, qualified `a.b.foo`, kind
function), and exactly one reference with source symbol `foo`, target
symbol `bar`, target file path `a.b`, type `call`, and NULL
target_symbol_id after within-file resolution. -/
theorem c7_single_python_function_scenario :
    pythonParse 20 demoModuleNode "a/b.py" demoSource =
      ⟨"a/b.py", "python",
        [⟨"foo", "a.b.foo", "function", demoSource, some "def foo()", none⟩],
        [⟨"call", some "a.b", some "foo", some "a.b", some "bar", none, none⟩]⟩ ∧
    fileRowForParsed "file1" "repo1" (pythonParse 20 demoModuleNode "a/b.py" demoSource) =
      ⟨"file1", "repo1", "a/b.py", "python"⟩ ∧
    bulk_insert_from_parsed_file (fun n => "S" ++ toString n) (fun n => "R" ++ toString n)
        "repo1" "file1" (pythonParse 20 demoModuleNode "a/b.py" demoSource) =
      ([⟨"S0", "file1", "repo1", "foo", "a.b.foo", "function", some demoSource,
          some "def foo()", none⟩],
       [⟨"R0", "repo1", "S0", none, "a.b", "foo", "a.b", "bar", "call"⟩]) := by
  decide

/-- C8: for every job table and every serialized interleaving of atomic
`claim_next` calls, no job id is lost (the table's id column is
invariant), each job id is returned to at most one claimer (the returned
ids are pairwise distinct), and every returned job is in status
`parsing`, stamped with that claimer's worker id and its `started_at`
time. -/
theorem c8_job_claim_exclusivity (jobs : List JobRow) (cs : List (String × Nat)) :
    (runClaims cs jobs).2.map JobRow.id = jobs.map JobRow.id ∧
    ((runClaims cs jobs).1.filterMap fun o => Option.map JobRow.id o).Nodup ∧
    ∀ p ∈ cs.zip (runClaims cs jobs).1, ∀ j, p.2 = some j →
      j.status = "parsing" ∧ j.workerId = some p.1.1 ∧ j.startedAt = some p.1.2 :=
  ⟨runClaims_ids cs jobs, runClaims_nodup cs jobs, runClaims_results cs jobs⟩

/-- C8 (witness): two workers race for one pending job — exactly the
first claimer receives it, stamped `parsing`/`w1`/time 5; the second
receives nothing. -/
theorem c8_job_claim_exclusivity_witness :
    (runClaims [("w1", 5), ("w2", 6)] [pendingJobRow]).1 =
      [some ⟨"J1", "r1", "parsing", some "w1", 0, some 5⟩, none] ∧
    (⟨"J1", "r1", "parsing", some "w1", 0, some 5⟩ : JobRow).status = "parsing" ∧
    (⟨"J1", "r1", "parsing", some "w1", 0, some 5⟩ : JobRow).workerId = some "w1" ∧
    (⟨"J1", "r1", "parsing", some "w1", 0, some 5⟩ : JobRow).startedAt = some 5 := by
  refine ⟨by decide, ?_⟩
  exact (c8_job_claim_exclusivity [pendingJobRow] [("w1", 5), ("w2", 6)]).2.2
    ((("w1", 5), some ⟨"J1", "r1", "parsing", some "w1", 0, some 5⟩)) (by decide)
    ⟨"J1", "r1", "parsing", some "w1", 0, some 5⟩ rfl

/-- C9: unresolved references are downstream-only leaves — a stored
reference with NULL `target_symbol_id` out of the queried symbol surfaces
in `get_downstream` as a depth-1 row with NULL id and its target
file path and symbol name populated; the recursive member of the
downstream CTE derives nothing through NULL rows (filtering them out of a
level changes nothing); and removing all unresolved references leaves
every `get_upstream` result unchanged, for every symbol and depth. -/
theorem c9_unresolved_references_downstream_only (syms : List SymbolRow)
    (refs : List ReferenceRow) (symbolId : String) (maxDepth : Nat) (r : ReferenceRow)
    (hr : r ∈ refs) (hsrc : r.sourceSymbolId = symbolId) (hnull : r.targetSymbolId = none) :
    (⟨none, r.targetSymbolName, none, none, none, none, 1, r.referenceType,
        r.targetFilePath, r.targetSymbolName⟩ : DownstreamEntry) ∈
      get_downstream syms refs symbolId maxDepth ∧
    (∀ prev, downstreamStep refs (prev.filter fun d => d.symbolId.isSome) =
        downstreamStep refs prev) ∧
    (∀ t m, get_upstream syms (refs.filter fun x => x.targetSymbolId.isSome) t m =
        get_upstream syms refs t m) := by
  refine ⟨?_, downstreamStep_filter refs, fun t m => get_upstream_filter syms refs t m⟩
  have hbase : downstreamRowOf r 1 ∈ downstreamRows refs symbolId maxDepth := by
    simp only [downstreamRows, List.mem_flatMap, List.mem_range]
    refine ⟨0, by simp [Nat.lt_of_lt_of_le Nat.zero_lt_one (le_max_left 1 maxDepth)], ?_⟩
    simp only [downstreamLevels, downstreamBase, List.mem_map, List.mem_filter]
    exact ⟨r, ⟨hr, by simp [hsrc]⟩, rfl⟩
  simp only [get_downstream, List.mem_map, List.mem_dedup]
  refine ⟨downstreamSelect syms (downstreamRowOf r 1), ⟨_, hbase, rfl⟩, ?_⟩
  simp [downstreamSelect, downstreamRowOf, hnull, downstreamEntryOf, pyStrOr]

/-- C9 (witness): the theorem evaluated on a single unresolved edge out
of symbol `A`. -/
theorem c9_unresolved_references_witness :
    (⟨none, "helper", none, none, none, none, 1, "call", "ext.mod", "helper"⟩ :
        DownstreamEntry) ∈ get_downstream [] [edgeAExternal] "A" 3 :=
  (c9_unresolved_references_downstream_only [] [edgeAExternal] "A" 3 edgeAExternal
    (by decide) rfl rfl).1

/-- C10: `bulk_insert_from_parsed_file` stores a parser-emitted reference
exactly when its source resolves, in the file's fresh dictionary, via
`source_path + "." + source_name`, the legacy `source_qualified_name`, or
the bare `source_path` (the stored-row count equals the count of
resolvable references — the rest are silently discarded); and every
stored reference carries a non-null `source_symbol_id` that is the id of
a symbol row inserted for this same file, with its address columns taken
from the emitted reference. -/
theorem c10_bulk_insert_source_resolution (symbolIdOf refIdOf : Nat → String)
    (repoId fileId : String) (pf : PyParsedFile) :
    (∀ rr ∈ (bulk_insert_from_parsed_file symbolIdOf refIdOf repoId fileId pf).2,
        rr.sourceSymbolId ∈
          (bulk_insert_from_parsed_file symbolIdOf refIdOf repoId fileId pf).1.map
            SymbolRow.id ∧
        ∃ r ∈ pf.references,
          resolveRefSource
              (insertSymbolsFold symbolIdOf repoId fileId pf.symbols).qualifiedNameToId r =
            some rr.sourceSymbolId ∧
          rr.sourceFilePath = get_source_path r ∧ rr.sourceSymbolName = get_source_name r ∧
          rr.targetFilePath = get_target_path r ∧ rr.targetSymbolName = get_target_name r ∧
          rr.referenceType = r.referenceType) ∧
    (bulk_insert_from_parsed_file symbolIdOf refIdOf repoId fileId pf).2.length =
      (pf.references.filter fun r =>
        (resolveRefSource
          (insertSymbolsFold symbolIdOf repoId fileId pf.symbols).qualifiedNameToId
          r).isSome).length := by
  constructor
  · intro rr hrr
    have hm := insertRefsFoldAux_mem refIdOf repoId
      (insertSymbolsFold symbolIdOf repoId fileId pf.symbols).qualifiedNameToId
      pf.references ([], 0) rr hrr
    rcases hm with hnil | ⟨r, hrm, i, sid, hres, heq⟩
    · cases hnil
    · subst heq
      refine ⟨?_, r, hrm, hres, rfl, rfl, rfl, rfl, rfl⟩
      obtain ⟨q, hq⟩ := resolveRefSource_mem _ r sid hres
      exact insertSymbolsFold_inv symbolIdOf repoId fileId pf.symbols q sid hq
  · have hlen := insertRefsFoldAux_len refIdOf repoId
      (insertSymbolsFold symbolIdOf repoId fileId pf.symbols).qualifiedNameToId
      pf.references ([], 0)
    simpa [bulk_insert_from_parsed_file, insertRefsFold] using hlen

/-- C10 (witness): the theorem evaluated on the concrete parse of
`a/b.py`: the one stored reference's source id `S0` is among the file's
inserted symbol ids. -/
theorem c10_bulk_insert_source_resolution_witness :
    ("S0" : String) ∈
      (bulk_insert_from_parsed_file (fun n => "S" ++ toString n) (fun n => "R" ++ toString n)
        "repo1" "file1" (pythonParse 20 demoModuleNode "a/b.py" demoSource)).1.map
        SymbolRow.id := by
  have h := ((c10_bulk_insert_source_resolution (fun n => "S" ++ toString n)
    (fun n => "R" ++ toString n) "repo1" "file1"
    (pythonParse 20 demoModuleNode "a/b.py" demoSource)).1
    ⟨"R0", "repo1", "S0", none, "a.b", "foo", "a.b", "bar", "call"⟩ (by decide)).1
  exact h

end ClaimTheorems

end CodeParser
